import Mathlib

/-!
Verification of the suggestion-aggregation logic of the NewTab extension
(`src/script.js`, with a second copy of the script embedded in `src/README.md`).

The JavaScript is shallowly embedded: suggestion objects become Lean
structures, chrome API responses become explicit list arguments, and the
`AbortController` generation mechanism becomes an explicit state machine.
JS strings are modelled as Lean `String` (sequences of scalar code points),
JS numbers holding `lastVisitTime` as `Nat`.  The repository contains three
variants of the script; definitions below note which variant (by line
numbers of `src/script.js` / `src/README.md`) they embed.
-/

/-- A raw browser history record, as returned by `chrome.history.search`:
`{id, url, title, lastVisitTime}`.  A missing/empty URL or title is modelled
as `""` (falsy in JS). -/
structure HistoryItem where
  url : String
  title : String
  id : String
  lastVisitTime : Nat
  deriving DecidableEq, Repr

/-- A raw bookmark record from `chrome.bookmarks.search`: `{id, url, title}`;
folders have `url = ""` (undefined in JS, falsy). -/
structure BookmarkItem where
  url : String
  title : String
  id : String
  deriving DecidableEq, Repr

/-- The mapped history sub-item produced inside `groupHistoryItems`
(`script.js:858-864`): `{text: title || url, url, type: 'history', id,
lastVisitTime}` (the constant `type` field is left implicit). -/
structure HistSub where
  text : String
  url : String
  id : String
  lastVisitTime : Nat
  deriving DecidableEq, Repr

/-- A suggestion object as built by the script: plain entries have
`isGroup = false` and empty `items`; group entries (`script.js:878-885`)
carry the member list and `latestVisitTime`.  Fields that a given object
kind does not set (JS `undefined`) are `none`. -/
structure Suggestion where
  text : String
  type : String
  url : Option String
  id : Option String
  lastVisitTime : Option Nat
  isGroup : Bool
  items : List HistSub
  latestVisitTime : Option Nat
  deriving DecidableEq, Repr

/-- The argument record of `chrome.history.search({text, maxResults})`. -/
structure HistoryQuery where
  text : String
  maxResults : Nat
  deriving DecidableEq, Repr

/-! ### Character-level string operations

JS string methods are embedded over the underlying character list, so that
every definition evaluates by kernel reduction. -/

/-- JS `toLowerCase` (on the plane the script touches): char-wise lower. -/
def jsToLower (s : String) : String :=
  String.mk (s.data.map Char.toLower)

/-- JS `String.prototype.trim`: strip leading and trailing whitespace. -/
def jsTrim (s : String) : String :=
  String.mk (((s.data.dropWhile Char.isWhitespace).reverse.dropWhile
    Char.isWhitespace).reverse)

/-- JS `includes(c)` for a single character `c`. -/
def containsChar (s : String) (c : Char) : Bool :=
  s.data.contains c

/-- JS `startsWith(pre)`. -/
def startsWithStr (s pre : String) : Bool :=
  List.isPrefixOf pre.data s.data

/-- JS `s.substring(n)` — drop the first `n` characters. -/
def dropStr (s : String) (n : Nat) : String :=
  String.mk (s.data.drop n)

/-! ### URL parser model

`new URL(s)` from the WHATWG URL standard, modelled on the fragment the
script exercises: absolute URLs of the shape `scheme://host[/path][?query][#fragment]`.
Strings without a `://` scheme separator, or with an empty scheme or host,
are rejected (JS would throw, which the script catches).  `hostname` is
lower-cased with userinfo (`...@`) and port (`:...`) stripped; an absent
path reads as `"/"`; `search`/`hash` keep their `?`/`#` marker when
non-empty, matching the JS properties the script compares against `''`. -/
structure URLParts where
  hostname : String
  pathname : String
  search : String
  hash : String
  deriving DecidableEq, Repr

/-- Split a character list at the first occurrence of `c`: returns the
part before and, when `c` occurs, the part after it. -/
def breakAtChar (c : Char) : List Char → List Char × Option (List Char)
  | [] => ([], none)
  | x :: xs =>
    if x = c then ([], some xs)
    else
      let r := breakAtChar c xs
      (x :: r.1, r.2)

/-- The part of a character list after its last occurrence of `c`
(the whole list when `c` does not occur). -/
def afterLastChar (c : Char) (l : List Char) : List Char :=
  (l.reverse.takeWhile (fun x => x != c)).reverse

/-- Split a character list at the first occurrence of the three-character
scheme separator `://`: the part before and the part after, `none` when the
separator does not occur. -/
def breakSchemeSep (l : List Char) : Option (List Char × List Char) :=
  match l with
  | ':' :: '/' :: '/' :: rest => some ([], rest)
  | c :: rest => (breakSchemeSep rest).map (fun p => (c :: p.1, p.2))
  | [] => none

def parseURL (s : String) : Option URLParts :=
  match breakSchemeSep s.data with
  | none => none
  | some (scheme, after) =>
    if scheme = [] then none
    else
      let noHash := breakAtChar '#' after
      let hash := match noHash.2 with
        | none => ""
        | some h => String.mk ('#' :: h)
      let noSearch := breakAtChar '?' noHash.1
      let search := match noSearch.2 with
        | none => ""
        | some q => String.mk ('?' :: q)
      let hostPath := breakAtChar '/' noSearch.1
      let pathname := match hostPath.2 with
        | none => "/"
        | some p => String.mk ('/' :: p)
      let authority := afterLastChar '@' hostPath.1
      let host := String.mk (breakAtChar ':' authority).1
      if host = "" then none
      else some ⟨jsToLower host, pathname, search, hash⟩

/-- `new URL(item.url).hostname.replace(/^www\./, '')` — strip one leading
`www.` (`script.js:846`). -/
def stripWWW (h : String) : String :=
  if startsWithStr h "www." then dropStr h 4 else h

/-- The grouping key of a history item: its URL's hostname without a leading
`www.`; `none` when `new URL` would throw (`script.js:844-851`). -/
def urlDomain (s : String) : Option String :=
  (parseURL s).map (fun u => stripWWW u.hostname)

/-- The `simpleUrlItem` predicate of `script.js:867-874`: the URL parses and
has `pathname === '/' && search === '' && hash === ''`. -/
def isSimpleUrl (s : String) : Bool :=
  match parseURL s with
  | some u => u.pathname = "/" && u.search = "" && u.hash = ""
  | none => false

/-! ### Stable descending sort

`items.sort((a, b) => b.key - a.key)` — JS `Array.prototype.sort` is stable,
so it is embedded as a stable insertion sort, descending on the key. -/

/-- Insert `x` into a descending-sorted list, after every element with a
strictly larger key and before the first element with a key `≤ key x`
(so equal keys keep their original relative order). -/
def insertDescBy (key : α → Nat) (x : α) : List α → List α
  | [] => [x]
  | y :: ys => if key x < key y then y :: insertDescBy key x ys else x :: y :: ys

/-- Stable sort, descending by `key`. -/
def sortDescBy (key : α → Nat) : List α → List α
  | [] => []
  | x :: xs => insertDescBy key x (sortDescBy key xs)

theorem insertDescBy_perm (key : α → Nat) (x : α) (l : List α) :
    List.Perm (insertDescBy key x l) (x :: l) := by
  induction l with
  | nil => simp [insertDescBy]
  | cons y ys ih =>
    simp only [insertDescBy]
    by_cases h : key x < key y
    · simp only [h, if_pos]
      exact List.Perm.trans (List.Perm.cons y ih) (List.Perm.swap x y ys)
    · simp [h]

theorem sortDescBy_perm (key : α → Nat) (l : List α) :
    List.Perm (sortDescBy key l) l := by
  induction l with
  | nil => simp [sortDescBy]
  | cons x xs ih =>
    exact List.Perm.trans (insertDescBy_perm key x (sortDescBy key xs)) (List.Perm.cons x ih)

theorem mem_sortDescBy (key : α → Nat) (l : List α) (x : α) :
    x ∈ sortDescBy key l ↔ x ∈ l :=
  (sortDescBy_perm key l).mem_iff

theorem insertDescBy_sorted (key : α → Nat) (x : α) (l : List α)
    (h : List.Pairwise (fun a b => key b ≤ key a) l) :
    List.Pairwise (fun a b => key b ≤ key a) (insertDescBy key x l) := by
  induction l with
  | nil => simp [insertDescBy]
  | cons y ys ih =>
    rw [List.pairwise_cons] at h
    obtain ⟨hy, hys⟩ := h
    simp only [insertDescBy]
    by_cases hxy : key x < key y
    · simp only [hxy, if_pos]
      refine List.Pairwise.cons ?_ (ih hys)
      intro b hb
      rcases List.mem_cons.mp (((insertDescBy_perm key x ys).mem_iff).mp hb) with hb | hb
      · subst hb; exact Nat.le_of_lt hxy
      · exact hy b hb
    · simp only [hxy, if_neg, not_false_iff]
      refine List.Pairwise.cons ?_ (List.Pairwise.cons hy hys)
      intro b hb
      rcases List.mem_cons.mp hb with hb | hb
      · subst hb; exact Nat.le_of_not_lt hxy
      · exact Nat.le_trans (hy b hb) (Nat.le_of_not_lt hxy)

theorem sortDescBy_sorted (key : α → Nat) (l : List α) :
    List.Pairwise (fun a b => key b ≤ key a) (sortDescBy key l) := by
  induction l with
  | nil => simp [sortDescBy]
  | cons x xs ih => exact insertDescBy_sorted key x (sortDescBy key xs) ih

/-! ### History grouper (`groupHistoryItems`, `script.js:833-896`,
identical copy at `src/README.md:206-269`) -/

/-- Step 1 (`script.js:834-841`): keep items with a truthy `url` not seen
before — first occurrence wins, provider order preserved.  `seen` is the
accumulated `seenUrls` set. -/
def dedupByUrlGo (seen : List String) : List HistoryItem → List HistoryItem
  | [] => []
  | i :: rest =>
    if i.url ≠ "" ∧ i.url ∉ seen then i :: dedupByUrlGo (i.url :: seen) rest
    else dedupByUrlGo seen rest

def dedupByUrl (items : List HistoryItem) : List HistoryItem :=
  dedupByUrlGo [] items

/-- Append `i` to the bucket of key `d`, or append a new bucket — the JS
`Map` keeps key insertion order (`script.js:847-850`). -/
def insertByDomain (m : List (String × List HistoryItem)) (d : String) (i : HistoryItem) :
    List (String × List HistoryItem) :=
  match m with
  | [] => [(d, [i])]
  | (k, v) :: rest =>
    if k = d then (k, v ++ [i]) :: rest else (k, v) :: insertByDomain rest d i

/-- The `uniqueHistoryItems.forEach(...)` loop of `script.js:844-852` with
accumulated map `m`. -/
def itemsByDomainGo (m : List (String × List HistoryItem)) :
    List HistoryItem → List (String × List HistoryItem)
  | [] => m
  | i :: rest =>
    match urlDomain i.url with
    | some d => itemsByDomainGo (insertByDomain m d i) rest
    | none => itemsByDomainGo m rest

/-- Step 2 (`script.js:843-852`): partition by domain, dropping items whose
URL fails to parse. -/
def itemsByDomain (items : List HistoryItem) : List (String × List HistoryItem) :=
  itemsByDomainGo [] items

/-- `items.map(...)` of `script.js:858-864`: `{text: item.title || item.url,
url, type: 'history', id, lastVisitTime}`. -/
def subOfItem (i : HistoryItem) : HistSub :=
  ⟨if i.title = "" then i.url else i.title, i.url, i.id, i.lastVisitTime⟩

/-- A mapped history item viewed as a full suggestion object (the shape
pushed for single-item domains, `script.js:887`). -/
def suggestionOfSub (h : HistSub) : Suggestion :=
  ⟨h.text, "history", some h.url, some h.id, some h.lastVisitTime, false, [], none⟩

/-- Steps 3-4 (`script.js:855-889`): sort one domain bucket descending by
`lastVisitTime`, then emit either a group or the single mapped item.
The body of the per-domain loop applied to the already-sorted bucket:
`items.length > 1` yields the group object (representative URL from
`simpleUrlItem`, else the most recent item), a single item yields
`mappedItems[0]`.  Buckets are never empty; the impossible `[]` case yields
no suggestion. -/
def processSorted (domain : String) : List HistoryItem → List Suggestion
  | [] => []
  | top :: rest =>
    if rest.length > 0 then
      [⟨domain, "history",
        some (match (top :: rest).find? (fun i => isSimpleUrl i.url) with
          | some i => i.url
          | none => top.url),
        none, none, true, (top :: rest).map subOfItem, some top.lastVisitTime⟩]
    else
      [suggestionOfSub (subOfItem top)]

def processDomain (domain : String) (items0 : List HistoryItem) : List Suggestion :=
  processSorted domain (sortDescBy (fun i => i.lastVisitTime) items0)

/-- The JS `a.latestVisitTime || a.lastVisitTime || 0` chain
(`script.js:892-893`): `undefined` and `0` fall through. -/
def numOr (a : Option Nat) (k : Nat) : Nat :=
  match a with
  | some t => if t = 0 then k else t
  | none => k

/-- Effective sort key of the final sort (`script.js:891-895`). -/
def effTime (s : Suggestion) : Nat :=
  numOr s.latestVisitTime (numOr s.lastVisitTime 0)

/-- `groupHistoryItems` (`script.js:833-896`): dedup by URL, partition by
domain, emit groups/singletons per domain, sort by effective time
descending. -/
def groupHistoryItems (historyItems : List HistoryItem) : List Suggestion :=
  let uniqueHistoryItems := dedupByUrl historyItems
  let byDomain := itemsByDomain uniqueHistoryItems
  let processed := (byDomain.map (fun p => processDomain p.1 p.2)).flatten
  sortDescBy effTime processed

/-! ### Merge / dedup (`fetchSuggestions`) -/

/-- `combined.filter((s, i, self) => i === self.findIndex(x => x.text === s.text))`
(`script.js:964-967`) keeps exactly the first occurrence of each `text`;
embedded with the accumulated set `seen` of texts already emitted. -/
def dedupByTextGo (seen : List String) : List Suggestion → List Suggestion
  | [] => []
  | s :: rest =>
    if s.text ∈ seen then dedupByTextGo seen rest
    else s :: dedupByTextGo (s.text :: seen) rest

def dedupByText (l : List Suggestion) : List Suggestion :=
  dedupByTextGo [] l

/-- `item[0].replace(/<[^>]+>/g, '')` (`script.js:938`): delete every
`<`…`>` span with at least one non-`>` character inside. -/
def stripTagsGo : Nat → List Char → List Char
  | _, [] => []
  | 0, l => l
  | fuel + 1, c :: rest =>
    if c = '<' then
      match breakAtChar '>' rest with
      | (mid, some after) =>
        if mid = [] then '<' :: stripTagsGo fuel rest else stripTagsGo fuel after
      | (_, none) => '<' :: stripTagsGo fuel rest
    else c :: stripTagsGo fuel rest

def stripTags (s : String) : String :=
  String.mk (stripTagsGo s.data.length s.data)

/-- One remote completion as mapped at `script.js:938`: the raw `item[0]`
string with HTML tags stripped, `type: 'search'`. -/
def searchEntryV3 (raw : String) : Suggestion :=
  ⟨stripTags raw, "search", none, none, none, false, [], none⟩

def googleSuggestionsV3 (rawTexts : List String) : List Suggestion :=
  rawTexts.map searchEntryV3

/-- The history query issued by `fetchSuggestions` (`script.js:949`):
`chrome.history.search({text: query, maxResults: 50}, ...)`. -/
def fetchHistoryQuery (query : String) : HistoryQuery :=
  ⟨query, 50⟩

/-- `fetchSuggestions`'s displayed list (`script.js:929-969`): grouped
history results, then remote completions, first-occurrence dedup by `text`,
capped at 10.  The two provider responses are passed in explicitly. -/
def fetchSuggestionsDisplay (historyResponse : List HistoryItem)
    (googleRawTexts : List String) : List Suggestion :=
  let historySuggestions := groupHistoryItems historyResponse
  let googleSuggestions := googleSuggestionsV3 googleRawTexts
  (dedupByText (historySuggestions ++ googleSuggestions)).take 10

/-! ### First script variant (`script.js:194-263`): the only variant with a
bookmark source; its history source is ungrouped. -/

/-- `fetchHistorySuggestions` of the first variant (`script.js:214-229`):
filter truthy url and title ≠ 'New Tab', map to plain entries. -/
def historySuggestionsV1 (items : List HistoryItem) : List Suggestion :=
  (items.filter (fun i => i.url != "" && i.title != "New Tab")).map
    (fun i => ⟨if i.title = "" then i.url else i.title, "history", some i.url,
      some i.id, none, false, [], none⟩)

/-- `fetchBookmarkSuggestions` (`script.js:231-246`): filter truthy url
(folders have none), map to bookmark entries. -/
def bookmarkSuggestionsV1 (items : List BookmarkItem) : List Suggestion :=
  (items.filter (fun i => i.url != "")).map
    (fun i => ⟨if i.title = "" then i.url else i.title, "bookmark", some i.url,
      some i.id, none, false, [], none⟩)

/-- Remote completions of the first variant (`script.js:205`): plain strings
wrapped as search entries. -/
def googleSuggestionsV1 (texts : List String) : List Suggestion :=
  texts.map (fun t => ⟨t, "search", none, none, none, false, [], none⟩)

/-- The first variant's merge (`script.js:248-262`): bookmarks, then
history, then remote; first-occurrence dedup by `text`; capped at 10. -/
def fetchSuggestionsDisplayV1 (bookmarkResponse : List BookmarkItem)
    (historyResponse : List HistoryItem) (googleTexts : List String) : List Suggestion :=
  (dedupByText (bookmarkSuggestionsV1 bookmarkResponse ++
    historySuggestionsV1 historyResponse ++ googleSuggestionsV1 googleTexts)).take 10

/-! ### README-embedded variant of `fetchSuggestions` (`src/README.md:316-365`) -/

/-- The README variant's history query (`README.md:344`):
`{text: query, maxResults: 50}`. -/
def historySearchQueryR (query : String) : HistoryQuery :=
  ⟨query, 50⟩

/-- The README variant's merge (`README.md:358-364`): top 3 grouped history
entries, then remote completions whose lowercased text does not collide
with a kept history entry's lowercased text, capped at 10.  (`s.text` is
always a string here, so the JS `(s.text || '')` guard is the identity.) -/
def fetchSuggestionsMergeR (historySuggestions googleSuggestions : List Suggestion) :
    List Suggestion :=
  let topHistory := historySuggestions.take 3
  let historyTexts := topHistory.map (fun s => jsToLower s.text)
  let filteredGoogle := googleSuggestions.filter
    (fun s => !(historyTexts.contains (jsToLower s.text)))
  (topHistory ++ filteredGoogle).take 10

/-- The README variant's full displayed list: grouped history merged with
the remote completions (each a `{text, type: 'search'}` object, same shape
as `googleSuggestionsV1` builds). -/
def fetchSuggestionsDisplayR (historyResponse : List HistoryItem)
    (googleTexts : List String) : List Suggestion :=
  fetchSuggestionsMergeR (groupHistoryItems historyResponse)
    (googleSuggestionsV1 googleTexts)

/-! ### Initial suggestions (`showInitialSuggestions`, `script.js:898-908`) -/

/-- The initial-path history query (`script.js:903`):
`chrome.history.search({text: '', maxResults: 100}, ...)`. -/
def initialHistoryQuery : HistoryQuery :=
  ⟨"", 100⟩

/-- The initial-path displayed list (`script.js:903-907`): filter truthy url
and title ≠ 'New Tab', group, cap at 10. -/
def showInitialSuggestionsDisplay (historyResponse : List HistoryItem) : List Suggestion :=
  (groupHistoryItems
    (historyResponse.filter (fun i => i.url != "" && i.title != "New Tab"))).take 10

/-! ### Navigation-target resolution (`performSearch`, `script.js:910-927`,
`README.md:292-310`) -/

/-- Bytes left unescaped by JS `encodeURIComponent`:
`A-Z a-z 0-9 - _ . ! ~ * ' ( )`. -/
def isUnreservedByte (b : Nat) : Bool :=
  (65 ≤ b && b ≤ 90) || (97 ≤ b && b ≤ 122) || (48 ≤ b && b ≤ 57) ||
  b == 45 || b == 95 || b == 46 || b == 33 || b == 126 ||
  b == 42 || b == 39 || b == 40 || b == 41

def hexDigitChar (n : Nat) : Char :=
  if n < 10 then Char.ofNat (48 + n) else Char.ofNat (55 + n)

def encodeByte (b : Nat) : List Char :=
  if isUnreservedByte b then [Char.ofNat b]
  else ['%', hexDigitChar (b / 16), hexDigitChar (b % 16)]

/-- UTF-8 encoding of one scalar code point. -/
def utf8Bytes (c : Char) : List Nat :=
  let n := c.toNat
  if n < 128 then [n]
  else if n < 2048 then [192 + n / 64, 128 + n % 64]
  else if n < 65536 then [224 + n / 4096, 128 + (n / 64) % 64, 128 + n % 64]
  else [240 + n / 262144, 128 + (n / 4096) % 64, 128 + (n / 64) % 64, 128 + n % 64]

/-- JS `encodeURIComponent`: percent-encode every UTF-8 byte outside the
unreserved set, uppercase hex. -/
def encodeURIComponent (s : String) : String :=
  String.mk (((s.data.map utf8Bytes).flatten.map encodeByte).flatten)

/-- `performSearch(query)` with no explicit url argument
(`script.js:910-927`): the resolved navigation target, `none` when the
trimmed query is empty (the function returns without navigating).
`query.includes('.')` / `query.includes(' ')` test for a dot and for the
space character; `query.startsWith('http')` is a plain prefix test. -/
def performSearchTarget (query : String) : Option String :=
  let q := jsTrim query
  if q = "" then none
  else if containsChar q '.' && !(containsChar q ' ') then
    some (if startsWithStr q "http" then q else "https://" ++ q)
  else some ("https://www.google.com/search?q=" ++ encodeURIComponent q)

/-! ### Rendering (`createSuggestionItem`, `script.js:1018-1036`) -/

/-- `suggestion.text.length > 70 ? suggestion.text.substring(0, 70) + '...'
: suggestion.text` (`script.js:1031`). -/
def truncate70 (text : String) : String :=
  if text.data.length > 70 then String.mk (text.data.take 70) ++ "..." else text

/-- The text rendered for a top-level suggestion row. -/
def createSuggestionItemText (sugg : Suggestion) : String :=
  truncate70 sugg.text

/-- The text rendered for a group sub-item row (sub-items go through the
same `createSuggestionItem`, `script.js:985-987`). -/
def createSubItemText (sub : HistSub) : String :=
  truncate70 sub.text

/-! ### Cancellable fetch session (`script.js:709, 930-932, 961`)

`abortController.abort(); abortController = new AbortController()` at the
top of every aggregation, and `if (signal.aborted) return;` at the merge
point, are embedded as a generation counter: each `start` bumps the current
generation (aborting every older signal); a `complete` event carries the
generation token its session captured, and its `signal.aborted` test reads
"some later start happened", i.e. the token is below the current
generation.  Only a non-stale completion overwrites the display. -/

inductive FetchEvent
  | start
  | complete (token : Nat) (results : List Suggestion)
  deriving DecidableEq, Repr

structure FetchState where
  gen : Nat
  display : List Suggestion
  deriving DecidableEq, Repr

def applyFetchEvent (s : FetchState) : FetchEvent → FetchState
  | .start => ⟨s.gen + 1, s.display⟩
  | .complete t res => if t < s.gen then s else ⟨s.gen, res⟩

def runFetchEvents (s : FetchState) (l : List FetchEvent) : FetchState :=
  l.foldl applyFetchEvent s

/-! ### Remote fetch error handling (`fetchGoogleSuggestions`,
`README.md:323-338`) -/

/-- A minimal JSON value, for the payload of the suggest endpoint. -/
inductive JVal
  | jnull
  | jbool (b : Bool)
  | jnum (n : Int)
  | jstr (s : String)
  | jarr (l : List JVal)

/-- JS truthiness of a JSON value (`null`/`false`/`0`/`''` are falsy;
arrays are always truthy). -/
def jsTruthy : JVal → Bool
  | .jnull => false
  | .jbool b => b
  | .jnum n => n != 0
  | .jstr s => s != ""
  | .jarr _ => true

/-- JS optional indexing `v?.[i]`: element of an array, single-character
string of a string, `undefined` (here `jnull`) otherwise. -/
def jsIndex (v : JVal) (i : Nat) : JVal :=
  match v with
  | .jarr l => (l.get? i).getD .jnull
  | .jstr s =>
    match s.data.get? i with
    | some c => .jstr (String.mk [c])
    | none => .jnull
  | _ => .jnull

/-- The exceptions the try-block of `fetchGoogleSuggestions` can observe. -/
inductive JsError
  | networkError
  | abortError
  | parseError
  deriving DecidableEq, Repr

/-- Outcome of the `fetch` call: rejection (network failure), rejection
with an `AbortError`, or an HTTP response whose body either parses to a
JSON value or makes `res.json()` throw. -/
inductive FetchOutcome
  | networkFailure
  | aborted
  | response (ok : Bool) (body : Option JVal)

/-- One remote suggestion as produced by the README variant's map
(`README.md:330-333`): the raw JSON value kept as `text`. -/
structure RemoteEntry where
  text : JVal

/-- `README.md:329-333`: `Array.isArray(data?.[1]) ? data[1] : []`, then
`.map(s => typeof s === 'string' ? s : s?.[0]).filter(Boolean)`. -/
def extractSuggestTexts (data : JVal) : List JVal :=
  let list := match data with
    | .jarr l =>
      match l.get? 1 with
      | some (.jarr l1) => l1
      | _ => []
    | _ => []
  (list.map (fun s =>
    match s with
    | .jstr _ => s
    | v => jsIndex v 0)).filter jsTruthy

/-- The try-block of `fetchGoogleSuggestions` (`README.md:324-333`): the
value it returns, or the exception it throws.  A non-ok response returns
`[]` before `res.json()` is called. -/
def remoteAttempt (o : FetchOutcome) : Except JsError (List RemoteEntry) :=
  match o with
  | .networkFailure => .error .networkError
  | .aborted => .error .abortError
  | .response ok body =>
    if !ok then .ok []
    else
      match body with
      | none => .error .parseError
      | some data => .ok ((extractSuggestTexts data).map (fun t => ⟨t⟩))

/-- `fetchGoogleSuggestions` (`README.md:323-338`): the try-block wrapped in
the catch that maps every thrown error — abort or otherwise — to `[]`. -/
def fetchGoogleSuggestionsR (o : FetchOutcome) : List RemoteEntry :=
  match remoteAttempt o with
  | .ok l => l
  | .error _ => []

/-! ### Spec-side definitions

These follow the words of the spec/claims (not the code) and exist only to
be compared against the code-side definitions above. -/

/-- The spec's dedup key (spec.md §3): "URL if present, else lowercased
text". -/
def dedupKeySpec (s : Suggestion) : String :=
  match s.url with
  | some u => u
  | none => jsToLower s.text

/-- C2's description of the merge, from the claim's words: bookmark
matches first, then *grouped* history matches, then remote completions,
earlier entries winning their slot and later duplicates dropped, capped at
10. -/
def mergeGroupedClaim (bookmarkResponse : List BookmarkItem)
    (historyResponse : List HistoryItem) (googleTexts : List String) : List Suggestion :=
  (dedupByText (bookmarkSuggestionsV1 bookmarkResponse ++
    groupHistoryItems historyResponse ++ googleSuggestionsV1 googleTexts)).take 10

/-- "already has a scheme prefix" (C8): a non-empty scheme followed by
`://`. -/
def hasUrlScheme (s : String) : Bool :=
  match breakSchemeSep s.data with
  | some (scheme, _) => scheme != []
  | none => false

def containsWhitespaceChar (s : String) : Bool :=
  s.data.any Char.isWhitespace

/-- C8's navigation-target resolution, from the claim's words: trim; empty
→ no-op; a URL exactly when a scheme prefix is already present or the text
contains a '.' and no whitespace (prepending the default secure scheme in
the latter case); otherwise a percent-encoded search-engine query URL. -/
def resolveTargetClaim (query : String) : Option String :=
  let q := jsTrim query
  if q = "" then none
  else if hasUrlScheme q then some q
  else if containsChar q '.' && !(containsWhitespaceChar q) then some ("https://" ++ q)
  else some ("https://www.google.com/search?q=" ++ encodeURIComponent q)

/-! ### Lemmas: first-occurrence dedup -/

theorem dedupByTextGo_sublist (seen : List String) (l : List Suggestion) :
    List.Sublist (dedupByTextGo seen l) l := by
  induction l generalizing seen with
  | nil => simp [dedupByTextGo]
  | cons s rest ih =>
    simp only [dedupByTextGo]
    by_cases h : s.text ∈ seen
    · simp only [h, if_pos]
      exact (ih seen).cons s
    · simp only [h, if_neg, not_false_iff]
      exact (ih (s.text :: seen)).cons₂ s

theorem mem_dedupByTextGo (seen : List String) (l : List Suggestion) (e : Suggestion)
    (he : e ∈ dedupByTextGo seen l) :
    e.text ∉ seen ∧ l.find? (fun x => x.text == e.text) = some e := by
  induction l generalizing seen with
  | nil => simp [dedupByTextGo] at he
  | cons s rest ih =>
    simp only [dedupByTextGo] at he
    by_cases h : s.text ∈ seen
    · rw [if_pos h] at he
      obtain ⟨h1, h2⟩ := ih seen he
      have hne : (s.text == e.text) = false := by
        rw [beq_eq_false_iff_ne]
        intro hc
        exact h1 (hc ▸ h)
      exact ⟨h1, by rw [List.find?_cons_of_neg _ (by simp [hne]), h2]⟩
    · rw [if_neg h] at he
      rcases List.mem_cons.mp he with rfl | he'
      · exact ⟨h, by rw [List.find?_cons_of_pos _ (by simp)]⟩
      · obtain ⟨h1, h2⟩ := ih (s.text :: seen) he'
        have hs : e.text ≠ s.text := fun hc => h1 (hc ▸ List.mem_cons_self _ _)
        have hne : (s.text == e.text) = false := by
          rw [beq_eq_false_iff_ne]; exact fun hc => hs hc.symm
        refine ⟨fun hc => h1 (List.mem_cons_of_mem _ hc), ?_⟩
        rw [List.find?_cons_of_neg _ (by simp [hne]), h2]

theorem dedupByTextGo_pairwise (seen : List String) (l : List Suggestion) :
    List.Pairwise (fun a b => a.text ≠ b.text) (dedupByTextGo seen l) := by
  induction l generalizing seen with
  | nil => simp [dedupByTextGo]
  | cons s rest ih =>
    simp only [dedupByTextGo]
    by_cases h : s.text ∈ seen
    · simp only [h, if_pos]; exact ih seen
    · simp only [h, if_neg, not_false_iff]
      refine List.Pairwise.cons ?_ (ih (s.text :: seen))
      intro b hb hc
      exact (mem_dedupByTextGo _ _ _ hb).1 (hc ▸ List.mem_cons_self _ _)

/-- Claim C1 (amended): within one displayed list produced by
`fetchSuggestions`' merge, entries are deduplicated by their exact `text`:
no two entries of the displayed list share the same text. -/
theorem claim_merge_dedup_text (historyResponse : List HistoryItem)
    (googleRawTexts : List String) :
    List.Pairwise (fun a b => a.text ≠ b.text)
      (fetchSuggestionsDisplay historyResponse googleRawTexts) := by
  unfold fetchSuggestionsDisplay dedupByText
  exact (dedupByTextGo_pairwise [] _).sublist (List.take_sublist _ _)

/-- Claim C1, counterexample to the claim as stated: with remote
completions `["Foo", "foo"]` and no history, the displayed list keeps both
entries, which share the spec's dedup key (lowercased text) `"foo"` — the
code's dedup key is the exact text, not the URL-else-lowercased-text key. -/
theorem claim_merge_dedup_counterexample :
    (fetchSuggestionsDisplay [] ["Foo", "foo"]).map dedupKeySpec = ["foo", "foo"] ∧
    ¬ List.Pairwise (fun a b => dedupKeySpec a ≠ dedupKeySpec b)
      (fetchSuggestionsDisplay [] ["Foo", "foo"]) := by decide

/-- Claim C2 (amended): in the bookmark-aware variant's merge, source
priority order is preserved — bookmark matches first, then history matches
(as mapped by that variant, ungrouped), then remote completions: the
displayed list is a sublist of the priority-ordered concatenation, every
displayed entry is the first entry of the concatenation carrying its text
(earlier-priority entries win the slot, later duplicates are dropped), and
the size cap 10 is respected. -/
theorem claim_priority_order (bookmarkResponse : List BookmarkItem)
    (historyResponse : List HistoryItem) (googleTexts : List String) :
    List.Sublist (fetchSuggestionsDisplayV1 bookmarkResponse historyResponse googleTexts)
      (bookmarkSuggestionsV1 bookmarkResponse ++ historySuggestionsV1 historyResponse ++
        googleSuggestionsV1 googleTexts) ∧
    (∀ e ∈ fetchSuggestionsDisplayV1 bookmarkResponse historyResponse googleTexts,
      (bookmarkSuggestionsV1 bookmarkResponse ++ historySuggestionsV1 historyResponse ++
        googleSuggestionsV1 googleTexts).find? (fun x => x.text == e.text) = some e) ∧
    (fetchSuggestionsDisplayV1 bookmarkResponse historyResponse googleTexts).length ≤ 10 := by
  unfold fetchSuggestionsDisplayV1 dedupByText
  refine ⟨(List.take_sublist _ _).trans (dedupByTextGo_sublist [] _), ?_, List.length_take_le ..⟩
  intro e he
  exact (mem_dedupByTextGo [] _ e (List.mem_of_mem_take he)).2

/-- Claim C2, witness: with one bookmark titled `B` and a remote completion
`B`, the bookmark entry is the first match for the text `B` and wins the
slot. -/
theorem claim_priority_order_witness :
    (bookmarkSuggestionsV1 [⟨"https://b.com/", "B", "1"⟩] ++ historySuggestionsV1 [] ++
      googleSuggestionsV1 ["B"]).find? (fun x => x.text == "B") =
      some ⟨"B", "bookmark", some "https://b.com/", some "1", none, false, [], none⟩ :=
  (claim_priority_order [⟨"https://b.com/", "B", "1"⟩] [] ["B"]).2.1
    ⟨"B", "bookmark", some "https://b.com/", some "1", none, false, [], none⟩ (by decide)

/-- Claim C2, counterexample to the claim as stated: in the only variant
with a bookmark source (`script.js:248-262`) the history matches are *not*
grouped — two same-domain history records surface as two plain rows, where
the claim's grouped merge would show one group row. -/
theorem claim_priority_counterexample :
    (fetchSuggestionsDisplayV1 []
        [⟨"https://a.com/", "A", "1", 100⟩, ⟨"https://a.com/x", "Ax", "2", 200⟩] []).map
      Suggestion.isGroup = [false, false] ∧
    (mergeGroupedClaim []
        [⟨"https://a.com/", "A", "1", 100⟩, ⟨"https://a.com/x", "Ax", "2", 200⟩] []).map
      Suggestion.isGroup = [true] ∧
    fetchSuggestionsDisplayV1 []
        [⟨"https://a.com/", "A", "1", 100⟩, ⟨"https://a.com/x", "Ax", "2", 200⟩] [] ≠
      mergeGroupedClaim []
        [⟨"https://a.com/", "A", "1", 100⟩, ⟨"https://a.com/x", "Ax", "2", 200⟩] [] := by
  decide

/-! ### C3: staleness -/

theorem runFetchEvents_gen_le (s : FetchState) (l : List FetchEvent) :
    s.gen ≤ (runFetchEvents s l).gen := by
  induction l generalizing s with
  | nil => simp [runFetchEvents]
  | cons e rest ih =>
    have h1 : s.gen ≤ (applyFetchEvent s e).gen := by
      cases e with
      | start => simp [applyFetchEvent]
      | complete t res =>
        simp only [applyFetchEvent]
        split <;> simp
    calc s.gen ≤ (applyFetchEvent s e).gen := h1
      _ ≤ _ := ih (applyFetchEvent s e)

theorem runFetchEvents_append (s : FetchState) (l₁ l₂ : List FetchEvent) :
    runFetchEvents s (l₁ ++ l₂) = runFetchEvents (runFetchEvents s l₁) l₂ :=
  List.foldl_append ..

/-- Claim C3: if aggregation B starts before aggregation A's provider calls
resolve, A's completion is a no-op on the state, wherever it arrives among
the later events: A's generation token `a` (captured right after A's
`start`) is below the current generation by the time its `Promise.all` join
runs the `signal.aborted` check, so `displaySuggestions` is never reached
for A's results. -/
theorem claim_stale_never_applied (s₀ : FetchState) (p q r t : List FetchEvent)
    (res : List Suggestion) (a : Nat) (ha : a = (runFetchEvents s₀ p).gen + 1) :
    runFetchEvents s₀
        (p ++ FetchEvent.start ::
          (q ++ FetchEvent.start :: (r ++ FetchEvent.complete a res :: t))) =
      runFetchEvents s₀
        (p ++ FetchEvent.start :: (q ++ FetchEvent.start :: (r ++ t))) := by
  have hsplit : ∀ u : List FetchEvent,
      runFetchEvents s₀ (p ++ FetchEvent.start :: (q ++ FetchEvent.start :: (r ++ u))) =
        runFetchEvents (runFetchEvents (applyFetchEvent (runFetchEvents
          (applyFetchEvent (runFetchEvents s₀ p) FetchEvent.start) q) FetchEvent.start) r) u := by
    intro u
    simp [runFetchEvents, List.foldl_append, List.foldl_cons]
  rw [hsplit, hsplit]
  have h1 : (applyFetchEvent (runFetchEvents s₀ p) FetchEvent.start).gen = a := by
    simp [applyFetchEvent, ha]
  have h2 := runFetchEvents_gen_le (applyFetchEvent (runFetchEvents s₀ p) FetchEvent.start) q
  have h3 : (applyFetchEvent (runFetchEvents
      (applyFetchEvent (runFetchEvents s₀ p) FetchEvent.start) q) FetchEvent.start).gen =
      (runFetchEvents (applyFetchEvent (runFetchEvents s₀ p) FetchEvent.start) q).gen + 1 := by
    simp [applyFetchEvent]
  have h4 := runFetchEvents_gen_le (applyFetchEvent (runFetchEvents
    (applyFetchEvent (runFetchEvents s₀ p) FetchEvent.start) q) FetchEvent.start) r
  set S := runFetchEvents (applyFetchEvent (runFetchEvents
    (applyFetchEvent (runFetchEvents s₀ p) FetchEvent.start) q) FetchEvent.start) r with hS
  have hgen : a < S.gen := by omega
  show runFetchEvents S (FetchEvent.complete a res :: t) = runFetchEvents S t
  unfold runFetchEvents
  rw [List.foldl_cons]
  congr 1
  simp [applyFetchEvent, hgen]

/-- Claim C3, witness: two starts followed by the first session's
completion — the stale completion leaves the state exactly as if it had
never arrived. -/
theorem claim_stale_never_applied_witness :
    runFetchEvents ⟨0, []⟩ [FetchEvent.start, FetchEvent.start,
        FetchEvent.complete 1 [⟨"x", "search", none, none, none, false, [], none⟩]] =
      runFetchEvents ⟨0, []⟩ [FetchEvent.start, FetchEvent.start] :=
  claim_stale_never_applied ⟨0, []⟩ [] [] [] []
    [⟨"x", "search", none, none, none, false, [], none⟩] 1 (by decide)

/-- Claim C5: the initial-suggestions path (`showInitialSuggestions`,
`script.js:898-908`) queries history only, with an empty text filter and a
raw bound of 100 records; every record titled `New Tab` is excluded (the
displayed list is unchanged if such records are pre-removed); and at most
10 top-level entries are displayed. -/
theorem claim_initial_suggestions (historyResponse : List HistoryItem) :
    initialHistoryQuery.text = "" ∧ initialHistoryQuery.maxResults = 100 ∧
    (showInitialSuggestionsDisplay historyResponse).length ≤ 10 ∧
    showInitialSuggestionsDisplay historyResponse =
      showInitialSuggestionsDisplay (historyResponse.filter
        (fun i => i.title != "New Tab")) := by
  refine ⟨rfl, rfl, List.length_take_le .., ?_⟩
  unfold showInitialSuggestionsDisplay
  rw [List.filter_filter]
  congr 2
  apply List.filter_congr
  intro x _
  cases h : (x.title != "New Tab") <;> simp [h]

/-- Claim C8, counterexample to the claim as stated: `"http://localhost"`
has a scheme prefix, yet `performSearch` classifies it as a search phrase
(its URL test is `includes('.') && !includes(' ')` only) and navigates to a
search-engine query URL instead of the address itself. -/
theorem claim_nav_resolution_counterexample :
    hasUrlScheme "http://localhost" = true ∧
    performSearchTarget "http://localhost" =
      some "https://www.google.com/search?q=http%3A%2F%2Flocalhost" ∧
    performSearchTarget "http://localhost" ≠ resolveTargetClaim "http://localhost" := by
  decide

/-- Claim C8 (amended): navigation-target resolution trims the text; empty
→ no-op; the text is classified as a URL exactly when it contains a `'.'`
and no space character — used as-is when it starts with `"http"`, else with
`"https://"` prepended — and otherwise becomes a percent-encoded
search-engine query URL. -/
theorem claim_nav_resolution (query : String) :
    (jsTrim query = "" → performSearchTarget query = none) ∧
    (jsTrim query ≠ "" → containsChar (jsTrim query) '.' = true →
      containsChar (jsTrim query) ' ' = false →
      startsWithStr (jsTrim query) "http" = true →
      performSearchTarget query = some (jsTrim query)) ∧
    (jsTrim query ≠ "" → containsChar (jsTrim query) '.' = true →
      containsChar (jsTrim query) ' ' = false →
      startsWithStr (jsTrim query) "http" = false →
      performSearchTarget query = some ("https://" ++ jsTrim query)) ∧
    (jsTrim query ≠ "" →
      (containsChar (jsTrim query) '.' = false ∨ containsChar (jsTrim query) ' ' = true) →
      performSearchTarget query =
        some ("https://www.google.com/search?q=" ++ encodeURIComponent (jsTrim query))) := by
  refine ⟨fun h => by simp [performSearchTarget, h], ?_, ?_, ?_⟩
  · intro h1 h2 h3 h4
    simp [performSearchTarget, h1, h2, h3, h4]
  · intro h1 h2 h3 h4
    simp [performSearchTarget, h1, h2, h3, h4]
  · intro h1 h2
    rcases h2 with h2 | h2 <;> simp [performSearchTarget, h1, h2]

/-- Claim C8, witness — the claim's own scenario: input `"openai.com"`
resolves to the target `"https://openai.com"`. -/
theorem claim_nav_resolution_witness :
    performSearchTarget "openai.com" = some "https://openai.com" := by
  have h := (claim_nav_resolution "openai.com").2.2.1 (by decide) (by decide) (by decide)
    (by decide)
  rw [h]
  decide

/-- Claim C9: the remote suggestion fetch never propagates an error — every
outcome on which its try-block throws (network failure, abort, JSON parse
failure) is caught and yields the empty entry list, and an HTTP error
status also yields the empty list. -/
theorem claim_remote_failure_empty :
    (∀ o e, remoteAttempt o = Except.error e → fetchGoogleSuggestionsR o = []) ∧
    fetchGoogleSuggestionsR FetchOutcome.networkFailure = [] ∧
    fetchGoogleSuggestionsR FetchOutcome.aborted = [] ∧
    fetchGoogleSuggestionsR (FetchOutcome.response true none) = [] ∧
    (∀ body, fetchGoogleSuggestionsR (FetchOutcome.response false body) = []) := by
  refine ⟨?_, rfl, rfl, rfl, fun body => rfl⟩
  intro o e h
  unfold fetchGoogleSuggestionsR
  rw [h]

/-- Claim C9, witness: a network failure contributes zero entries. -/
theorem claim_remote_failure_empty_witness :
    fetchGoogleSuggestionsR FetchOutcome.networkFailure = [] :=
  claim_remote_failure_empty.1 FetchOutcome.networkFailure JsError.networkError rfl

theorem truncate70_spec (t : String) :
    (t.data.length ≤ 70 → truncate70 t = t) ∧
    (70 < t.data.length → truncate70 t = String.mk (t.data.take 70) ++ "...") ∧
    (truncate70 t).data.length ≤ 73 := by
  unfold truncate70
  by_cases h : t.data.length > 70
  · refine ⟨fun hle => absurd h (by omega), fun _ => by rw [if_pos h], ?_⟩
    rw [if_pos h]
    have hd : (String.mk (t.data.take 70) ++ "...").data = t.data.take 70 ++ "...".data := rfl
    rw [hd, List.length_append, List.length_take]
    simp
  · rw [if_neg h]
    exact ⟨fun _ => rfl, fun hlt => absurd hlt h, by omega⟩

/-- Claim C10: every rendered suggestion row — top-level entry or group
sub-item, both built by `createSuggestionItem` — shows the suggestion's
text unchanged when it has at most 70 characters, and otherwise its first
70 characters followed by `"..."`; hence every rendered row's text has at
most 73 characters. -/
theorem claim_render_truncation :
    (∀ sugg : Suggestion,
      (sugg.text.data.length ≤ 70 → createSuggestionItemText sugg = sugg.text) ∧
      (70 < sugg.text.data.length →
        createSuggestionItemText sugg = String.mk (sugg.text.data.take 70) ++ "...") ∧
      (createSuggestionItemText sugg).data.length ≤ 73) ∧
    (∀ sub : HistSub,
      (sub.text.data.length ≤ 70 → createSubItemText sub = sub.text) ∧
      (70 < sub.text.data.length →
        createSubItemText sub = String.mk (sub.text.data.take 70) ++ "...") ∧
      (createSubItemText sub).data.length ≤ 73) :=
  ⟨fun sugg => truncate70_spec sugg.text, fun sub => truncate70_spec sub.text⟩

/-- Claim C10, witness: a short text is rendered unchanged. -/
theorem claim_render_truncation_witness :
    createSuggestionItemText ⟨"hello", "search", none, none, none, false, [], none⟩ =
      "hello" :=
  (claim_render_truncation.1 ⟨"hello", "search", none, none, none, false, [], none⟩).1
    (by decide)

/-! ### Lemmas: grouper -/

theorem mem_dedupByUrlGo (seen : List String) (l : List HistoryItem) (i : HistoryItem)
    (hi : i ∈ dedupByUrlGo seen l) : i.url ∉ seen ∧ i.url ≠ "" ∧ i ∈ l := by
  induction l generalizing seen with
  | nil => simp [dedupByUrlGo] at hi
  | cons x rest ih =>
    simp only [dedupByUrlGo] at hi
    by_cases hx : x.url ≠ "" ∧ x.url ∉ seen
    · rw [if_pos hx] at hi
      rcases List.mem_cons.mp hi with rfl | hi'
      · exact ⟨hx.2, hx.1, List.mem_cons_self _ _⟩
      · obtain ⟨h1, h2, h3⟩ := ih (x.url :: seen) hi'
        exact ⟨fun hc => h1 (List.mem_cons_of_mem _ hc), h2, List.mem_cons_of_mem _ h3⟩
    · rw [if_neg hx] at hi
      obtain ⟨h1, h2, h3⟩ := ih seen hi
      exact ⟨h1, h2, List.mem_cons_of_mem _ h3⟩

theorem dedupByUrlGo_urls_nodup (seen : List String) (l : List HistoryItem) :
    ((dedupByUrlGo seen l).map (fun i => i.url)).Nodup := by
  induction l generalizing seen with
  | nil => simp [dedupByUrlGo]
  | cons x rest ih =>
    simp only [dedupByUrlGo]
    by_cases hx : x.url ≠ "" ∧ x.url ∉ seen
    · rw [if_pos hx]
      simp only [List.map_cons, List.nodup_cons]
      refine ⟨?_, ih (x.url :: seen)⟩
      intro hc
      rcases List.mem_map.mp hc with ⟨j, hj, hjeq⟩
      exact (mem_dedupByUrlGo _ _ _ hj).1 (by rw [hjeq]; exact List.mem_cons_self _ _)
    · rw [if_neg hx]; exact ih seen

theorem insertByDomain_flat_perm (m : List (String × List HistoryItem)) (d : String)
    (i : HistoryItem) :
    List.Perm (((insertByDomain m d i).map Prod.snd).flatten)
      ((m.map Prod.snd).flatten ++ [i]) := by
  induction m with
  | nil => simp [insertByDomain]
  | cons kv rest ih =>
    obtain ⟨k, v⟩ := kv
    simp only [insertByDomain]
    by_cases hk : k = d
    · rw [if_pos hk]
      simp only [List.map_cons, List.flatten_cons]
      rw [List.append_assoc, List.append_assoc]
      exact List.Perm.append_left v (List.perm_append_comm)
    · rw [if_neg hk]
      simp only [List.map_cons, List.flatten_cons]
      rw [List.append_assoc]
      exact List.Perm.append_left v ih

theorem itemsByDomainGo_flat_perm (l : List HistoryItem) :
    ∀ m, List.Perm (((itemsByDomainGo m l).map Prod.snd).flatten)
      ((m.map Prod.snd).flatten ++ l.filter (fun i => (urlDomain i.url).isSome)) := by
  induction l with
  | nil => intro m; simp [itemsByDomainGo]
  | cons i rest ih =>
    intro m
    simp only [itemsByDomainGo]
    cases hd : urlDomain i.url with
    | some d =>
      have hfil : (i :: rest).filter (fun x => (urlDomain x.url).isSome) =
          i :: rest.filter (fun x => (urlDomain x.url).isSome) := by
        simp [List.filter_cons, hd]
      rw [hfil]
      refine (ih (insertByDomain m d i)).trans ?_
      refine ((insertByDomain_flat_perm m d i).append_right _).trans ?_
      rw [List.append_assoc]
      exact List.Perm.refl _
    | none =>
      have hfil : (i :: rest).filter (fun x => (urlDomain x.url).isSome) =
          rest.filter (fun x => (urlDomain x.url).isSome) := by
        simp [List.filter_cons, hd]
      rw [hfil]
      exact ih m

theorem itemsByDomain_flat_perm (items : List HistoryItem) :
    List.Perm (((itemsByDomain items).map Prod.snd).flatten)
      (items.filter (fun i => (urlDomain i.url).isSome)) := by
  simpa using itemsByDomainGo_flat_perm items []

theorem mem_bucket_mem (items : List HistoryItem) (p : String × List HistoryItem)
    (hp : p ∈ itemsByDomain items) (i : HistoryItem) (hi : i ∈ p.2) : i ∈ items := by
  have h1 : i ∈ ((itemsByDomain items).map Prod.snd).flatten := by
    rw [List.mem_flatten]
    exact ⟨p.2, List.mem_map_of_mem Prod.snd hp, hi⟩
  have h2 := (itemsByDomain_flat_perm items).mem_iff.mp h1
  exact List.mem_of_mem_filter h2

theorem buckets_url_disjoint (u : List HistoryItem)
    (hu : (u.map (fun i => i.url)).Nodup) :
    List.Pairwise (fun p q : String × List HistoryItem =>
      ∀ a ∈ p.2, ∀ b ∈ q.2, a.url ≠ b.url) (itemsByDomain u) := by
  have hflat : (((itemsByDomain u).map Prod.snd).flatten.map (fun i => i.url)).Nodup := by
    refine ((itemsByDomain_flat_perm u).map (fun i => i.url)).nodup_iff.mpr ?_
    exact hu.sublist ((u.filter_sublist).map (fun i => i.url))
  rw [List.map_flatten, List.map_map] at hflat
  rw [List.nodup_flatten] at hflat
  obtain ⟨-, hpair⟩ := hflat
  rw [List.pairwise_map] at hpair
  refine hpair.imp ?_
  intro p q hdisj a ha b hb hab
  exact hdisj (List.mem_map_of_mem _ ha) (by rw [hab]; exact List.mem_map_of_mem _ hb)

theorem processSorted_length (d : String) (l : List HistoryItem) :
    (processSorted d l).length ≤ 1 := by
  cases l with
  | nil => simp [processSorted]
  | cons top rest =>
    simp only [processSorted]
    by_cases hr : rest.length > 0 <;> simp [hr]

theorem processDomain_length (d : String) (its : List HistoryItem) :
    (processDomain d its).length ≤ 1 :=
  processSorted_length d _

theorem mem_processSorted (d : String) (l : List HistoryItem) (e : Suggestion)
    (he : e ∈ processSorted d l) :
    e.type = "history" ∧ (e.isGroup = true → 2 ≤ e.items.length) ∧
    (e.isGroup = false → e.items = []) ∧
    (∃ u, e.url = some u ∧ ∃ i, i ∈ l ∧ i.url = u) := by
  cases l with
  | nil => simp [processSorted] at he
  | cons top rest =>
    simp only [processSorted] at he
    by_cases hr : rest.length > 0
    · rw [if_pos hr] at he
      rw [List.mem_singleton] at he
      subst he
      refine ⟨rfl, fun _ => ?_, fun hc => by simp at hc, ?_⟩
      · simp only [List.length_map, List.length_cons]
        omega
      · cases hfind : (top :: rest).find? (fun i => isSimpleUrl i.url) with
        | some i =>
          exact ⟨i.url, by simp [hfind],
            i, List.mem_of_find?_eq_some hfind, rfl⟩
        | none =>
          exact ⟨top.url, by simp [hfind], top, List.mem_cons_self _ _, rfl⟩
    · rw [if_neg hr] at he
      rw [List.mem_singleton] at he
      subst he
      exact ⟨rfl, fun hc => by simp [suggestionOfSub] at hc, fun _ => rfl,
        top.url, rfl, top, List.mem_cons_self _ _, rfl⟩

theorem mem_processDomain (d : String) (its : List HistoryItem) (e : Suggestion)
    (he : e ∈ processDomain d its) :
    e.type = "history" ∧ (e.isGroup = true → 2 ≤ e.items.length) ∧
    (e.isGroup = false → e.items = []) ∧
    (∃ u, e.url = some u ∧ ∃ i, i ∈ its ∧ i.url = u) := by
  obtain ⟨h1, h2, h3, u, hu, i, hil, hiu⟩ := mem_processSorted d _ e he
  exact ⟨h1, h2, h3, u, hu, i,
    (mem_sortDescBy (fun i => i.lastVisitTime) its i).mp hil, hiu⟩

theorem mem_processSorted_group (d : String) (l : List HistoryItem) (e : Suggestion)
    (hsorted : List.Pairwise (fun a b => b.lastVisitTime ≤ a.lastVisitTime) l)
    (he : e ∈ processSorted d l) (hg : e.isGroup = true) :
    List.Pairwise (fun a b : HistSub => b.lastVisitTime ≤ a.lastVisitTime) e.items ∧
    ((∃ m, m ∈ e.items ∧ isSimpleUrl m.url = true ∧ e.url = some m.url) ∨
     ((∀ m ∈ e.items, isSimpleUrl m.url = false) ∧
      ∃ m, m ∈ e.items ∧ e.url = some m.url ∧
        ∀ m2 ∈ e.items, m2.lastVisitTime ≤ m.lastVisitTime)) := by
  cases l with
  | nil => simp [processSorted] at he
  | cons top rest =>
    simp only [processSorted] at he
    by_cases hr : rest.length > 0
    · rw [if_pos hr] at he
      rw [List.mem_singleton] at he
      subst he
      constructor
      · rw [List.pairwise_map]
        exact hsorted
      · cases hfind : (top :: rest).find? (fun i => isSimpleUrl i.url) with
        | some i =>
          left
          refine ⟨subOfItem i, List.mem_map_of_mem _ (List.mem_of_find?_eq_some hfind),
            ?_, by simp [hfind, subOfItem]⟩
          have := List.find?_some hfind
          simpa [subOfItem] using this
        | none =>
          right
          have hnone := List.find?_eq_none.mp hfind
          refine ⟨?_, subOfItem top, List.mem_map_of_mem _ (List.mem_cons_self _ _),
            by simp [hfind, subOfItem], ?_⟩
          · intro m hm
            rcases List.mem_map.mp hm with ⟨i, hi, rfl⟩
            exact Bool.eq_false_iff.mpr (hnone i hi)
          · intro m2 hm2
            rcases List.mem_map.mp hm2 with ⟨i, hi, rfl⟩
            rcases List.mem_cons.mp hi with rfl | hi'
            · exact Nat.le_refl _
            · exact (List.pairwise_cons.mp hsorted).1 i hi'
    · rw [if_neg hr] at he
      rw [List.mem_singleton] at he
      subst he
      simp [suggestionOfSub] at hg

theorem mem_groupHistoryItems_decomp (items : List HistoryItem) (e : Suggestion)
    (he : e ∈ groupHistoryItems items) :
    ∃ p, p ∈ itemsByDomain (dedupByUrl items) ∧ e ∈ processDomain p.1 p.2 := by
  simp only [groupHistoryItems] at he
  rw [mem_sortDescBy] at he
  rcases List.mem_flatten.mp he with ⟨l, hl, hel⟩
  rcases List.mem_map.mp hl with ⟨p, hp, rfl⟩
  exact ⟨p, hp, hel⟩

theorem groupHistoryItems_type (items : List HistoryItem) :
    ∀ e ∈ groupHistoryItems items, e.type = "history" := by
  intro e he
  rcases mem_groupHistoryItems_decomp items e he with ⟨p, hp, hep⟩
  exact (mem_processDomain p.1 p.2 e hep).1

/-- Claim C6: for every raw history record set, the History Grouper's
output contains no group with fewer than 2 items (a single-URL domain
yields a plain entry, with no sub-items), and no two output entries share a
dedup key — every output entry carries a URL, and these URLs are pairwise
distinct. -/
theorem claim_grouper_invariants (items : List HistoryItem) :
    (∀ e ∈ groupHistoryItems items, e.isGroup = true → 2 ≤ e.items.length) ∧
    (∀ e ∈ groupHistoryItems items, e.isGroup = false → e.items = []) ∧
    List.Pairwise (fun a b => dedupKeySpec a ≠ dedupKeySpec b)
      (groupHistoryItems items) := by
  refine ⟨?_, ?_, ?_⟩
  · intro e he hg
    rcases mem_groupHistoryItems_decomp items e he with ⟨p, hp, hep⟩
    exact (mem_processDomain p.1 p.2 e hep).2.1 hg
  · intro e he hg
    rcases mem_groupHistoryItems_decomp items e he with ⟨p, hp, hep⟩
    exact (mem_processDomain p.1 p.2 e hep).2.2.1 hg
  · have hnodup := dedupByUrlGo_urls_nodup [] items
    have hdisj := buckets_url_disjoint (dedupByUrl items) hnodup
    have hproc : List.Pairwise (fun a b => dedupKeySpec a ≠ dedupKeySpec b)
        (((itemsByDomain (dedupByUrl items)).map
          (fun p => processDomain p.1 p.2)).flatten) := by
      rw [List.pairwise_flatten]
      constructor
      · intro l hl
        rcases List.mem_map.mp hl with ⟨p, hp, rfl⟩
        have hlen := processDomain_length p.1 p.2
        rcases hll : processDomain p.1 p.2 with _ | ⟨x, xs⟩
        · exact List.Pairwise.nil
        · rw [hll] at hlen
          simp only [List.length_cons] at hlen
          have : xs = [] := List.eq_nil_of_length_eq_zero (by omega)
          subst this
          simp
      · rw [List.pairwise_map]
        refine hdisj.imp ?_
        intro p q hpq a ha b hb
        obtain ⟨-, -, -, u, hu, i, hip, hiu⟩ := mem_processDomain p.1 p.2 a ha
        obtain ⟨-, -, -, v, hv, j, hjq, hjv⟩ := mem_processDomain q.1 q.2 b hb
        have : i.url ≠ j.url := hpq i hip j hjq
        simp only [dedupKeySpec, hu, hv]
        rw [← hiu, ← hjv]
        exact this
    have hperm := sortDescBy_perm effTime (((itemsByDomain (dedupByUrl items)).map
      (fun p => processDomain p.1 p.2)).flatten)
    simp only [groupHistoryItems]
    exact (hperm.pairwise_iff
      (fun hab => fun hc => hab hc.symm)).mpr hproc

/-- Claim C6, witness: on the two-record `a.com` history the single output
group has 2 items, a plain entry has no sub-items, and the output is
trivially dedup-key-distinct. -/
theorem claim_grouper_invariants_witness :
    2 ≤ (⟨"a.com", "history", some "https://a.com/", none, none, true,
      [⟨"Ax", "https://a.com/x", "2", 200⟩, ⟨"A", "https://a.com/", "1", 100⟩],
      some 200⟩ : Suggestion).items.length :=
  (claim_grouper_invariants
      [⟨"https://a.com/", "A", "1", 100⟩, ⟨"https://a.com/x", "Ax", "2", 200⟩]).1
    ⟨"a.com", "history", some "https://a.com/", none, none, true,
      [⟨"Ax", "https://a.com/x", "2", 200⟩, ⟨"A", "https://a.com/", "1", 100⟩],
      some 200⟩ (by decide) (by decide)

/-- Claim C7: every group's representative URL is the URL of a member whose
path is exactly `/` with no query and no fragment when such a member
exists, else the URL of a most recently visited member; members are sorted
descending by `lastVisitTime`; and the claim's concrete scenario holds
exactly. -/
theorem claim_group_representative :
    (∀ (items : List HistoryItem) (g : Suggestion), g ∈ groupHistoryItems items →
      g.isGroup = true →
      List.Pairwise (fun a b : HistSub => b.lastVisitTime ≤ a.lastVisitTime) g.items ∧
      ((∃ m, m ∈ g.items ∧ isSimpleUrl m.url = true ∧ g.url = some m.url) ∨
       ((∀ m ∈ g.items, isSimpleUrl m.url = false) ∧
        ∃ m, m ∈ g.items ∧ g.url = some m.url ∧
          ∀ m2 ∈ g.items, m2.lastVisitTime ≤ m.lastVisitTime))) ∧
    groupHistoryItems
        [⟨"https://a.com/", "A", "1", 100⟩, ⟨"https://a.com/x", "Ax", "2", 200⟩] =
      [⟨"a.com", "history", some "https://a.com/", none, none, true,
        [⟨"Ax", "https://a.com/x", "2", 200⟩, ⟨"A", "https://a.com/", "1", 100⟩],
        some 200⟩] := by
  refine ⟨?_, by decide⟩
  intro items g hg hgg
  rcases mem_groupHistoryItems_decomp items g hg with ⟨p, hp, hgp⟩
  exact mem_processSorted_group p.1 _ g
    (sortDescBy_sorted (fun i => i.lastVisitTime) p.2) hgp hgg

/-- Claim C7, witness: in the `a.com` scenario's output group the items are
sorted descending by visit time. -/
theorem claim_group_representative_witness :
    List.Pairwise (fun a b : HistSub => b.lastVisitTime ≤ a.lastVisitTime)
      (⟨"a.com", "history", some "https://a.com/", none, none, true,
        [⟨"Ax", "https://a.com/x", "2", 200⟩, ⟨"A", "https://a.com/", "1", 100⟩],
        some 200⟩ : Suggestion).items :=
  (claim_group_representative.1
    [⟨"https://a.com/", "A", "1", 100⟩, ⟨"https://a.com/x", "Ax", "2", 200⟩]
    ⟨"a.com", "history", some "https://a.com/", none, none, true,
      [⟨"Ax", "https://a.com/x", "2", 200⟩, ⟨"A", "https://a.com/", "1", 100⟩],
      some 200⟩ (by decide) (by decide)).1

theorem googleSuggestionsV1_type (texts : List String) :
    ∀ s ∈ googleSuggestionsV1 texts, s.type = "search" := by
  intro s hs
  rcases List.mem_map.mp hs with ⟨t, ht, rfl⟩
  rfl

theorem filter_take_append_sublist (l₁ l₂ : List Suggestion) (n : Nat)
    (p : Suggestion → Bool) (h1 : ∀ a ∈ l₁, p a = true) (h2 : ∀ a ∈ l₂, p a = false) :
    List.Sublist (((l₁ ++ l₂).take n).filter p) l₁ := by
  refine ((List.take_sublist n _).filter p).trans ?_
  rw [List.filter_append, List.filter_eq_self.mpr h1,
    List.filter_eq_nil_iff.mpr (fun a ha => by simp [h2 a ha]), List.append_nil]

/-- Claim C4 (the README-embedded `fetchSuggestions`, `README.md:341-364`):
every merged displayed list has length at most 10; the history-typed
entries it displays form a sublist of the top 3 grouped history entries
(so at most 3 history entries are kept when merging with the remote
source); and the raw history query is bounded to 50 records. -/
theorem claim_merge_caps (historyResponse : List HistoryItem)
    (googleTexts : List String) :
    (fetchSuggestionsDisplayR historyResponse googleTexts).length ≤ 10 ∧
    List.Sublist
      ((fetchSuggestionsDisplayR historyResponse googleTexts).filter
        (fun s => s.type == "history"))
      ((groupHistoryItems historyResponse).take 3) ∧
    (∀ q, (historySearchQueryR q).maxResults = 50) := by
  refine ⟨List.length_take_le .., ?_, fun q => rfl⟩
  simp only [fetchSuggestionsDisplayR, fetchSuggestionsMergeR]
  refine filter_take_append_sublist _ _ 10 _ ?_ ?_
  · intro a ha
    have := groupHistoryItems_type historyResponse a (List.mem_of_mem_take ha)
    simp [this]
  · intro a ha
    have := googleSuggestionsV1_type googleTexts a (List.mem_of_mem_filter ha)
    simp [this]
